import Mathlib

/-!
Verification of the lockplane schema core (internal/schema: parser.go,
loader.go, checker.go) against its specification.

The Go code is shallowly embedded: pure functions become Lean functions,
the external pg_query parse tree becomes an inductive AST at the boundary
described in the spec, and filesystem access is abstracted by passing the
directory listing / file parse outcomes as explicit arguments.  Go machine
integers that appear (int32 byte offsets, line numbers) are modelled as
Int/Nat; none of the modelled code relies on overflow.  Go source text is
modelled as its sequence of bytes (`List Char`, one `Char` per byte; all
byte values compared against are ASCII, and a `\n` byte never occurs inside
a multi-byte UTF-8 sequence, so newline scanning is byte-exact).
-/

set_option maxHeartbeats 1000000

namespace Lockplane

/-- internal/database SourceLocation: file path (possibly empty), 1-based
line and column. -/
structure SourceLocation where
  file : String
  line : Nat
  column : Nat
deriving DecidableEq, Repr

/-- internal/database Column as read and written by the schema package:
name, rendered type string, nullability, primary-key flag and optional
default-expression text (Go `Default *string`). -/
structure Column where
  name : String
  type : String
  nullable : Bool
  isPrimaryKey : Bool
  default : Option String
deriving DecidableEq, Repr

/-- internal/database Table as read and written by the schema package. -/
structure Table where
  name : String
  schema : String
  columns : List Column
  rlsEnabled : Bool
  sourceLocation : Option SourceLocation
deriving DecidableEq, Repr

instance : Inhabited Table :=
  ⟨{ name := "", schema := "", columns := [], rlsEnabled := false, sourceLocation := none }⟩

/-- Dialect tag; only PostgreSQL is produced by this core. -/
inductive Dialect where
  | postgres
deriving DecidableEq, Repr

/-- internal/database Schema: ordered tables plus the dialect tag. -/
structure Schema where
  tables : List Table
  dialect : Dialect
deriving DecidableEq, Repr

/-! ### The external parser AST boundary (pg_query)

Only the node shapes that parser.go inspects are modelled.  Every node kind
the Go switch statements do not name is collapsed into an `other`
constructor, which is faithful because the code treats all of them
identically (default branch / skipped). -/

/-- The `val` oneof of a pg_query A_Const node (`unset` = no variant set). -/
inductive AConstVal where
  | ival (n : Int)
  | fval (s : String)
  | sval (s : String)
  | bsval (s : String)
  | boolval (b : Bool)
  | unset

/-- A pg_query expression/value node, restricted to the kinds formatExpr and
formatTypeName inspect.  `other` stands for every unhandled node kind. -/
inductive Node where
  | string_ (sval : String)
  | aConst (val : AConstVal) (isnull : Bool)
  | funcCall (funcname : List Node) (args : List Node)
  | typeCast (arg : Option Node)
  | sqlvalueFunction (op : Int)
  | other

mutual

/-- parser.go formatExpr: renders an expression AST node back to SQL text,
returning the placeholder "UNDEFINED_EXPRESSION" for anything it does not
recognize.  `formatExprList` is the argument-formatting loop of the
FuncCall branch. -/
def formatExpr : Node → String
  | Node.aConst v isnull =>
      match v with
      | AConstVal.ival n => toString n
      | AConstVal.fval s => s
      | AConstVal.sval s => "'" ++ s ++ "'"
      | AConstVal.bsval s => s
      | AConstVal.boolval b => if b then "true" else "false"
      | AConstVal.unset => if isnull then "NULL" else "UNDEFINED_EXPRESSION"
  | Node.funcCall funcname args =>
      match funcname with
      | Node.string_ funcName :: _ =>
          match formatExprList args with
          | [] => funcName ++ "()"
          | a :: rest => funcName ++ "(" ++ String.intercalate ", " (a :: rest) ++ ")"
      | _ => "UNDEFINED_EXPRESSION"
  | Node.typeCast (some arg) => formatExpr arg
  | Node.typeCast none => "UNDEFINED_EXPRESSION"
  | Node.sqlvalueFunction op =>
      if op = 1 then "CURRENT_DATE"
      else if op = 2 then "CURRENT_TIME"
      else if op = 3 then "CURRENT_TIME"
      else if op = 4 then "CURRENT_TIMESTAMP"
      else if op = 5 then "CURRENT_TIMESTAMP"
      else if op = 6 then "LOCALTIME"
      else if op = 7 then "LOCALTIME"
      else if op = 8 then "LOCALTIMESTAMP"
      else if op = 9 then "LOCALTIMESTAMP"
      else if op = 10 then "CURRENT_ROLE"
      else if op = 11 then "CURRENT_USER"
      else if op = 12 then "USER"
      else if op = 13 then "SESSION_USER"
      else if op = 14 then "CURRENT_CATALOG"
      else if op = 15 then "CURRENT_SCHEMA"
      else "UNDEFINED_EXPRESSION"
  | Node.string_ _ => "UNDEFINED_EXPRESSION"
  | Node.other => "UNDEFINED_EXPRESSION"

def formatExprList : List Node → List String
  | [] => []
  | a :: rest => formatExpr a :: formatExprList rest

end

/-! ### Type rendering (formatTypeName / normalizePostgreSQLType) -/

/-- ASCII lowering, modelling Go strings.ToLower on the ASCII strings this
code compares (type names, filename suffixes). -/
def lowerString (s : String) : String :=
  String.mk (s.data.map Char.toLower)

/-- parser.go typeMap: internal PostgreSQL type spellings to canonical SQL
type names. -/
def typeMap : List (String × String) :=
  [ ("int2", "smallint"),
    ("int4", "integer"),
    ("int8", "bigint"),
    ("serial", "serial"),
    ("serial2", "smallserial"),
    ("serial4", "serial"),
    ("serial8", "bigserial"),
    ("bool", "boolean"),
    ("varchar", "varchar"),
    ("bpchar", "char"),
    ("float4", "real"),
    ("float8", "double precision"),
    ("timestamp", "timestamp without time zone"),
    ("timestamptz", "timestamp with time zone"),
    ("time", "time without time zone"),
    ("timetz", "time with time zone"),
    ("text", "text"),
    ("numeric", "numeric"),
    ("decimal", "decimal") ]

/-- parser.go normalizePostgreSQLType: case-insensitive exact-match lookup,
unmapped names pass through unchanged. -/
def normalizePostgreSQLType (pgType : String) : String :=
  match List.lookup (lowerString pgType) typeMap with
  | some normalized => normalized
  | none => pgType

/-- A pg_query TypeName node: qualified name parts, type modifiers and
array-bound markers, exactly the three fields formatTypeName reads. -/
structure TypeName where
  names : List Node
  typmods : List Node
  arrayBounds : List Node

/-- parser.go formatTypeName: join name parts with ".", drop a leading
pg_catalog qualifier, normalize, then append "(mods)" and "[]". -/
def formatTypeName (typeName : TypeName) : String :=
  if typeName.names.length = 0 then ""
  else
    let parts := typeName.names.filterMap fun n =>
      match n with
      | Node.string_ sval => some sval
      | _ => none
    let rawBase := String.intercalate "." parts
    let typeStr :=
      if parts.length > 1 ∧ parts.head? = some "pg_catalog" then
        (parts.getLast?).getD rawBase
      else rawBase
    let typeStr := normalizePostgreSQLType typeStr
    let typeStr :=
      if typeName.typmods.length > 0 then
        let mods := typeName.typmods.filterMap fun m =>
          match m with
          | Node.aConst (AConstVal.ival i) _ => some (toString i)
          | _ => none
        if mods.length > 0 then
          typeStr ++ "(" ++ String.intercalate "," mods ++ ")"
        else typeStr
      else typeStr
    if typeName.arrayBounds.length > 0 then typeStr ++ "[]" else typeStr

/-! ### Statement lowering (parser.go) -/

/-- parser.go byteOffsetToLineColumn inner loop: scan the first `offset`
bytes counting newlines. -/
def lineColLoop : List Char → Nat → Nat → Nat × Nat
  | [], line, column => (line, column)
  | c :: rest, line, column =>
      if c = '\n' then lineColLoop rest (line + 1) 1
      else lineColLoop rest line (column + 1)

/-- parser.go byteOffsetToLineColumn: 1-based (line, column) of a byte
offset; negative or past-the-end offsets yield (1, 1). -/
def byteOffsetToLineColumn (sql : List Char) (offset : Int) : Nat × Nat :=
  if offset < 0 ∨ (sql.length : Int) < offset then (1, 1)
  else lineColLoop (sql.take offset.toNat) 1 1

/-- pg_query constraint kinds that parseColumnConstraint distinguishes;
`otherKind` stands for every other ConstrType value (ignored). -/
inductive ConstrType where
  | notnull
  | null
  | defaultValue
  | primary
  | otherKind

/-- A pg_query column Constraint: its kind and (for DEFAULT) the raw
expression. -/
structure Constraint where
  contype : ConstrType
  rawExpr : Option Node

/-- parser.go parseColumnConstraint: apply one column-level constraint. -/
def parseColumnConstraint (col : Column) (constraint : Constraint) : Column :=
  match constraint.contype with
  | ConstrType.notnull => { col with nullable := false }
  | ConstrType.null => { col with nullable := true }
  | ConstrType.defaultValue =>
      match constraint.rawExpr with
      | some rawExpr => { col with default := some (formatExpr rawExpr) }
      | none => col
  | ConstrType.primary => { col with isPrimaryKey := true, nullable := false }
  | ConstrType.otherKind => col

/-- One element of a ColumnDef constraint list: either a Constraint node or
any other/nil node (which parseColumnDef skips). -/
inductive ConstraintItem where
  | constraint (c : Constraint)
  | otherItem

/-- A pg_query ColumnDef: column name, optional TypeName and constraint
nodes. -/
structure ColumnDef where
  colname : String
  typeName : Option TypeName
  constraints : List ConstraintItem

/-- parser.go parseColumnDef: build a Column (nullable by default), render
its type, then apply the constraints in source order. -/
def parseColumnDef (colDef : ColumnDef) : Except String Column :=
  if colDef.colname = "" then Except.error "column missing name"
  else
    let col : Column :=
      { name := colDef.colname, type := "", nullable := true,
        isPrimaryKey := false, default := none }
    let col :=
      match colDef.typeName with
      | some typeName => { col with type := formatTypeName typeName }
      | none => col
    let col := colDef.constraints.foldl
      (fun c item =>
        match item with
        | ConstraintItem.constraint cons => parseColumnConstraint c cons
        | ConstraintItem.otherItem => c)
      col
    Except.ok col

/-- A pg_query RangeVar: optional schema qualifier and relation name. -/
structure RangeVar where
  schemaname : String
  relname : String

/-- One element of CreateStmt.TableElts: a ColumnDef or any other/nil node
(table-level constraints and the like are skipped by parseCreateTable). -/
inductive TableElt where
  | columnDef (c : ColumnDef)
  | otherElt

/-- A pg_query CreateStmt, restricted to the fields parseCreateTable
reads. -/
structure CreateStmt where
  relation : Option RangeVar
  tableElts : List TableElt

/-- parser.go parseContext: the pristine SQL text (as bytes) and the
originating file path. -/
structure ParseContext where
  sql : List Char
  filename : String

/-- parser.go parseCreateTable: lower a CreateStmt to a Table, attaching
the source location computed from the statement byte offset. -/
def parseCreateTable (stmt : CreateStmt) (ctx : ParseContext)
    (stmtLocation : Int) : Except String Table :=
  match stmt.relation with
  | none => Except.error "CREATE TABLE missing relation"
  | some relation =>
      let lc := byteOffsetToLineColumn ctx.sql stmtLocation
      let columnsE : Except String (List Column) :=
        stmt.tableElts.foldlM
          (fun cols elt =>
            match elt with
            | TableElt.columnDef colDef =>
                match parseColumnDef colDef with
                | Except.error e => Except.error e
                | Except.ok col => Except.ok (cols ++ [col])
            | TableElt.otherElt => Except.ok cols)
          []
      match columnsE with
      | Except.error e => Except.error e
      | Except.ok columns =>
          Except.ok
            { name := relation.relname,
              schema := relation.schemaname,
              columns := columns,
              rlsEnabled := false,
              sourceLocation := some
                { file := ctx.filename, line := lc.1, column := lc.2 } }

/-- pg_query AlterTableType values distinguished by parseAlterTable;
`otherType` stands for every other sub-command kind (ignored). -/
inductive AlterTableType where
  | enableRowSecurity
  | disableRowSecurity
  | otherType

/-- A pg_query AlterTableCmd (only its Subtype is read). -/
structure AlterTableCmd where
  subtype : AlterTableType

/-- One element of AlterTableStmt.Cmds: an AlterTableCmd or any other/nil
node (skipped). -/
inductive AlterCmdItem where
  | alterTableCmd (c : AlterTableCmd)
  | otherCmd

/-- A pg_query AlterTableStmt, restricted to the fields parseAlterTable
reads. -/
structure AlterTableStmt where
  relation : Option RangeVar
  cmds : List AlterCmdItem

/-- Write the row-level-security flag of the table at index `idx`, models
the Go assignment `schema.Tables[tableIndex].RLSEnabled = b`. -/
def setRLSAt : List Table → Nat → Bool → List Table
  | [], _, _ => []
  | t :: ts, 0, b => { t with rlsEnabled := b } :: ts
  | t :: ts, Nat.succ n, b => t :: setRLSAt ts n b

/-- The match condition of parseAlterTable's table-search loop: the
table's name equals the target name and its effective schema (empty
treated as "public") equals the target's effective schema. -/
def alterMatchPred (relation : RangeVar) (table : Table) : Bool :=
  let tableName := relation.relname
  let tableSchema :=
    if relation.schemaname = "" then "public" else relation.schemaname
  let tblSchema := if table.schema = "" then "public" else table.schema
  table.name == tableName && tblSchema == tableSchema

/-- parseAlterTable's table search: the index of the first (lowest-index)
table matching the resolved target, models the Go loop with its `break`. -/
def alterTargetIndex (schema : Schema) (relation : RangeVar) : Option Nat :=
  schema.tables.findIdx? (alterMatchPred relation)

/-- The body of parseAlterTable's command loop: ENABLE/DISABLE ROW
SECURITY writes the flag of the table at `idx`; every other sub-command
kind is ignored. -/
def applyAlterCmd (idx : Nat) (tables : List Table) (cmd : AlterCmdItem) :
    List Table :=
  match cmd with
  | AlterCmdItem.alterTableCmd alterCmd =>
      match alterCmd.subtype with
      | AlterTableType.enableRowSecurity => setRLSAt tables idx true
      | AlterTableType.disableRowSecurity => setRLSAt tables idx false
      | AlterTableType.otherType => tables
  | AlterCmdItem.otherCmd => tables

/-- parser.go parseAlterTable: resolve the schema-qualified target (empty
schema treated as "public"), find the first matching table, and apply the
ENABLE/DISABLE ROW SECURITY sub-commands to it; a missing target is a
soft no-op. -/
def parseAlterTable (schema : Schema) (stmt : AlterTableStmt) :
    Except String Schema :=
  match stmt.relation with
  | none => Except.error "ALTER TABLE missing relation"
  | some relation =>
      match alterTargetIndex schema relation with
      | none => Except.ok schema
      | some idx =>
          Except.ok
            { schema with
              tables := stmt.cmds.foldl (applyAlterCmd idx) schema.tables }

/-! ### Diagnostics model (checker.go types) -/

/-- checker.go Diagnostic: message, severity and optional code /
file / line / column (empty string and 0 stand for the omitted JSON
fields). -/
structure Diagnostic where
  code : String
  message : String
  severity : String
  file : String
  line : Nat
  column : Nat
deriving DecidableEq, Repr

/-- checker.go Summary. -/
structure Summary where
  errors : Nat
  warnings : Nat
  valid : Bool
deriving DecidableEq, Repr

/-- checker.go CheckOutput: ordered diagnostics plus the summary (the JSON
serialization itself is not modelled). -/
structure CheckOutput where
  diagnostics : List Diagnostic
  summary : Summary
deriving DecidableEq, Repr

/-- checker.go NewCheckOutput: empty diagnostics, zero counters, valid. -/
def NewCheckOutput : CheckOutput :=
  { diagnostics := [],
    summary := { errors := 0, warnings := 0, valid := true } }

/-! ### Duplicate validation (loader.go)

Both validators build the same `seen` grouping: a map from the composite
key "effectiveSchema.tableName" to the list of table indices holding that
key.  The Go map is modelled as an insertion-ordered association list; Go's
map iteration order is unspecified, so the theorems below only rely on
order-insensitive consequences (or on schemas with a single offending
key). -/

/-- Go fmt %q applied to an identifier key: double quotes around the
string, with the escapes relevant to string data (backslash, quote and
common control characters) as produced by strconv.Quote. -/
def goQuoteChar (c : Char) : String :=
  if c = '"' then "\\\""
  else if c = '\\' then "\\\\"
  else if c = '\n' then "\\n"
  else if c = '\t' then "\\t"
  else if c = '\r' then "\\r"
  else String.singleton c

/-- Go fmt %q of a string value. -/
def goQuote (s : String) : String :=
  "\"" ++ String.join (s.data.map goQuoteChar) ++ "\""

/-- The composite duplicate key built by both validators:
`fmt.Sprintf("%s.%s", tableSchema, table.Name)` with an empty stored schema
replaced by "public". -/
def tableKey (table : Table) : String :=
  (if table.schema = "" then "public" else table.schema) ++ "." ++ table.name

/-- One step of filling the `seen` map: append index `i` to the entry for
`key`, creating the entry on first occurrence. -/
def insertSeen (seen : List (String × List Nat)) (key : String) (i : Nat) :
    List (String × List Nat) :=
  match seen with
  | [] => [(key, [i])]
  | (k, indices) :: rest =>
      if k = key then (k, indices ++ [i]) :: rest
      else (k, indices) :: insertSeen rest key i

/-- The indexed `for i, table := range schema.Tables` loop filling the
`seen` map. -/
def buildSeenGo : List (String × List Nat) → Nat → List Table →
    List (String × List Nat)
  | seen, _, [] => seen
  | seen, i, t :: ts => buildSeenGo (insertSeen seen (tableKey t) i) (i + 1) ts

/-- The `seen` grouping pass shared verbatim by validateNoDuplicateTables
and ValidateDuplicateTablesAsDiagnostics (the two Go functions contain the
identical loop). -/
def buildSeen (tables : List Table) : List (String × List Nat) :=
  buildSeenGo [] 0 tables

/-- The groups of `buildSeen` holding more than one table index: the keys
both validators flag, with their occurrence indices. -/
def offendingGroups (schema : Schema) : List (String × List Nat) :=
  (buildSeen schema.tables).filter fun g => g.2.length > 1

/-- The location application of the diagnostics-form validator: copy the
table's own source location onto the diagnostic (an empty file name leaves
the file field empty). -/
def applySourceLocation (table : Table) (d : Diagnostic) : Diagnostic :=
  match table.sourceLocation with
  | some loc =>
      let d := if loc.file ≠ "" then { d with file := loc.file } else d
      { d with line := loc.line, column := loc.column }
  | none => d

/-- The `for i, idx := range info.indices` loop emitting one diagnostic
per occurrence of one offending key. -/
def diagnosticsForGroupGo (schema : Schema) (key : String) :
    Nat → List Nat → List Diagnostic
  | _, [] => []
  | i, idx :: rest =>
      let table := schema.tables.getD idx default
      let message :=
        if i = 0 then
          "Table " ++ goQuote key ++ " is defined multiple times (first occurrence)"
        else
          "Table " ++ goQuote key ++ " is already defined (duplicate definition)"
      applySourceLocation table
        { code := "", message := message, severity := "error",
          file := "", line := 1, column := 1 } ::
        diagnosticsForGroupGo schema key (i + 1) rest

/-- The per-occurrence diagnostics the diagnostics-form validator emits for
one offending group: first occurrence wording for index position 0, then
duplicate wording, each at its own occurrence's location. -/
def diagnosticsForGroup (schema : Schema) (g : String × List Nat) :
    List Diagnostic :=
  diagnosticsForGroupGo schema g.1 0 g.2

/-- loader.go ValidateDuplicateTablesAsDiagnostics: group the tables, then
emit one error diagnostic per occurrence of every key defined more than
once. -/
def ValidateDuplicateTablesAsDiagnostics (schema : Schema) : List Diagnostic :=
  let seen := buildSeen schema.tables
  seen.foldl
    (fun diagnostics g =>
      if g.2.length > 1 then diagnostics ++ diagnosticsForGroup schema g
      else diagnostics)
    []

/-- The error message the hard-fail validator builds for one offending
group: every occurrence's file:line:column (or "line N" when the file is
unknown), joined with ", ". -/
def duplicateErrorMessage (schema : Schema) (g : String × List Nat) : String :=
  let locations := g.2.filterMap fun idx =>
    let table := schema.tables.getD idx default
    match table.sourceLocation with
    | some loc =>
        if loc.file ≠ "" then
          some (loc.file ++ ":" ++ toString loc.line ++ ":" ++ toString loc.column)
        else
          some ("line " ++ toString loc.line)
    | none => none
  if locations.length > 0 then
    "table " ++ goQuote g.1 ++ " is defined multiple times at: " ++
      String.intercalate ", " locations
  else
    "table " ++ goQuote g.1 ++ " is defined multiple times"

/-- loader.go validateNoDuplicateTables: the hard-fail variant, returning
`some errorText` when any key is defined more than once (`none` models the
Go nil error). -/
def validateNoDuplicateTables (schema : Schema) : Option String :=
  let seen := buildSeen schema.tables
  let errorMessages := seen.foldl
    (fun msgs g =>
      if g.2.length > 1 then msgs ++ [duplicateErrorMessage schema g]
      else msgs)
    []
  if errorMessages.length > 0 then
    some (String.intercalate "; " errorMessages)
  else none

/-! ### File/directory loading (loader.go)

Filesystem access is abstracted: a directory is its (os.ReadDir) entry
list, and each regular file carries the outcome that
ParseSQLSchemaWithDialectAndFilename produces for its contents (the
external pg_query call is out of scope).  File read errors are not
modelled.  os.ReadDir returns entries with distinct names, sorted or not;
loader.go re-sorts the joined paths with sort.Strings, which for the
distinct full paths arising here is the unique ordering by bytewise
lexicographic comparison (UTF-8 byte order coincides with the code-point
order compared below). -/

/-- Bytewise lexicographic string-less-or-equal, as Go `sort.Strings`
compares strings. -/
def charListLe : List Char → List Char → Bool
  | [], _ => true
  | _ :: _, [] => false
  | a :: as, b :: bs =>
      if a.toNat < b.toNat then true
      else if b.toNat < a.toNat then false
      else charListLe as bs

/-- String comparison used for the path sort. -/
def stringLeB (a b : String) : Bool :=
  charListLe a.data b.data

/-- One os.ReadDir entry together with the parse outcome of its contents
(meaningful only for regular files). -/
structure DirEntry where
  name : String
  isDir : Bool
  isSymlink : Bool
  parseResult : Except String Schema

/-- filepath.Join of a (clean, non-root) directory path and an entry
name. -/
def entryPath (dir : String) (entry : DirEntry) : String :=
  dir ++ "/" ++ entry.name

/-- Go strings.HasSuffix(strings.ToLower(name), ".lp.sql"). -/
def hasLpSqlSuffix (name : String) : Bool :=
  ".lp.sql".data.isSuffixOf (lowerString name).data

/-- The loader's directory-scan filter: regular (non-directory,
non-symlink) entries whose lowered name ends in ".lp.sql". -/
def isSchemaFileEntry (entry : DirEntry) : Bool :=
  !entry.isDir && !entry.isSymlink && hasLpSqlSuffix entry.name

/-- The sort.Strings pass over the matched file paths, carrying each
path's entry along (contents are recovered from the path in Go; entries
with their parse outcomes stand in for that here). -/
def sortByPath (dir : String) (entries : List DirEntry) : List DirEntry :=
  List.insertionSort
    (fun a b => stringLeB (entryPath dir a) (entryPath dir b) = true) entries

/-- loader.go loadSQLSchemaFromBytesWithFilename, given the parse outcome
of the file's bytes: wrap parse failure, then run the hard-fail duplicate
validator on the single file's schema. -/
def loadSQLSchemaFromBytes (parseResult : Except String Schema) :
    Except String Schema :=
  match parseResult with
  | Except.error e => Except.error ("failed to parse SQL DDL: " ++ e)
  | Except.ok schema =>
      match validateNoDuplicateTables schema with
      | some e => Except.error e
      | none => Except.ok schema

/-- loader.go loadSchemaFromDir: filter to .lp.sql entries, fail when none
match, sort by full path, load each file (with its own per-file duplicate
validation) concatenating the tables, then validate the aggregate. -/
def loadSchemaFromDir (dir : String) (entries : List DirEntry) :
    Except String Schema :=
  let sqlFiles := entries.filter isSchemaFileEntry
  if sqlFiles.length = 0 then
    Except.error ("no .lp.sql files found in directory " ++ dir)
  else
    let sorted := sortByPath dir sqlFiles
    let allTablesE : Except String (List Table) :=
      sorted.foldlM
        (fun allTables file =>
          match loadSQLSchemaFromBytes file.parseResult with
          | Except.error parseErr =>
              Except.error
                ("failed to parse SQL file " ++ entryPath dir file ++ ": " ++ parseErr)
          | Except.ok schema => Except.ok (allTables ++ schema.tables))
        []
    match allTablesE with
    | Except.error e => Except.error e
    | Except.ok allTables =>
        let combinedSchema : Schema :=
          { tables := allTables, dialect := Dialect.postgres }
        match validateNoDuplicateTables combinedSchema with
        | some e => Except.error e
        | none => Except.ok combinedSchema

/-- What os.Stat finds at the argument path: a directory (with its
listing), a regular file (with its parse outcome), or nothing. -/
inductive PathInfo where
  | dir (entries : List DirEntry)
  | file (parseResult : Except String Schema)
  | missing

/-- loader.go LoadSchema: directories are scanned; a single file must
itself carry the .lp.sql suffix, anything else fails. -/
def LoadSchema (path : String) (info : PathInfo) : Except String Schema :=
  match info with
  | PathInfo.dir entries => loadSchemaFromDir path entries
  | PathInfo.file parseResult =>
      if hasLpSqlSuffix path then loadSQLSchemaFromBytes parseResult
      else Except.error "did not find .lp.sql file(s)"
  | PathInfo.missing => Except.error "did not find .lp.sql file(s)"

/-! ### The check pipeline (checker.go) -/

/-- checker.go loadSQLSchemaWithoutValidation, given the file's parse
outcome: wrap parse failure, no duplicate validation. -/
def loadSQLSchemaWithoutValidation (parseResult : Except String Schema) :
    Except String Schema :=
  match parseResult with
  | Except.error e => Except.error ("failed to parse SQL DDL: " ++ e)
  | Except.ok schema => Except.ok schema

/-- checker.go loadSchemaFromDirWithoutValidation: the same scan, filter,
sort and concatenation as the strict loader, with no per-file and no
aggregate duplicate validation. -/
def loadSchemaFromDirWithoutValidation (dir : String)
    (entries : List DirEntry) : Except String Schema :=
  let sqlFiles := entries.filter isSchemaFileEntry
  if sqlFiles.length = 0 then
    Except.error ("no .lp.sql files found in directory " ++ dir)
  else
    let sorted := sortByPath dir sqlFiles
    let allTablesE : Except String (List Table) :=
      sorted.foldlM
        (fun allTables file =>
          match file.parseResult with
          | Except.error parseErr =>
              Except.error
                ("failed to parse SQL file " ++ entryPath dir file ++ ": " ++ parseErr)
          | Except.ok schema => Except.ok (allTables ++ schema.tables))
        []
    match allTablesE with
    | Except.error e => Except.error e
    | Except.ok allTables =>
        Except.ok { tables := allTables, dialect := Dialect.postgres }

/-- checker.go loadSchemaWithoutValidation. -/
def loadSchemaWithoutValidation (path : String) (info : PathInfo) :
    Except String Schema :=
  match info with
  | PathInfo.dir entries => loadSchemaFromDirWithoutValidation path entries
  | PathInfo.file parseResult =>
      if hasLpSqlSuffix path then loadSQLSchemaWithoutValidation parseResult
      else Except.error "did not find .lp.sql file(s)"
  | PathInfo.missing => Except.error "did not find .lp.sql file(s)"

/-- Go strconv.Atoi restricted to the all-digit captures the two location
patterns produce (the Go overflow-to-error-and-0 path would need captures
of 2^63 digits and is not modelled). -/
def digitsToNat (ds : List Char) : Nat :=
  ds.foldl (fun n c => n * 10 + (c.toNat - 48)) 0

/-- Leftmost-first match of the Go regexp `([^:]+):(\d+):(\d+)` at the
start of the text: the greedy `[^:]+` run (forced to end at the next
colon), then two greedy digit runs separated by a colon. -/
def matchFileLocAt (cs : List Char) : Option (List Char × List Char × List Char) :=
  let seg := cs.takeWhile fun c => c ≠ ':'
  if seg.isEmpty then none
  else
    match cs.drop seg.length with
    | ':' :: rest1 =>
        let d1 := rest1.takeWhile Char.isDigit
        if d1.isEmpty then none
        else
          match rest1.drop d1.length with
          | ':' :: rest2 =>
              let d2 := rest2.takeWhile Char.isDigit
              if d2.isEmpty then none else some (seg, d1, d2)
          | _ => none
    | _ => none

/-- FindStringSubmatch for `([^:]+):(\d+):(\d+)`: the match starting at
the leftmost position admitting one. -/
def findFileLoc : List Char → Option (List Char × List Char × List Char)
  | [] => none
  | c :: rest =>
      match matchFileLocAt (c :: rest) with
      | some r => some r
      | none => findFileLoc rest

/-- Leftmost-first match of the Go regexp `line (\d+)` at the start of the
text. -/
def matchLineNAt (cs : List Char) : Option (List Char) :=
  match cs with
  | 'l' :: 'i' :: 'n' :: 'e' :: ' ' :: rest =>
      let d := rest.takeWhile Char.isDigit
      if d.isEmpty then none else some d
  | _ => none

/-- FindStringSubmatch for `line (\d+)`. -/
def findLineN : List Char → Option (List Char)
  | [] => none
  | c :: rest =>
      match matchLineNAt (c :: rest) with
      | some r => some r
      | none => findLineN rest

/-- Go strings.SplitN(s, ":", n) on the character list (n ≥ 1). -/
def splitNColon : Nat → List Char → List (List Char)
  | 0, cs => [cs]
  | 1, cs => [cs]
  | Nat.succ (Nat.succ n), cs =>
      let seg := cs.takeWhile fun c => c ≠ ':'
      match cs.drop seg.length with
      | _ :: rest => seg :: splitNColon (Nat.succ n) rest
      | [] => [cs]

/-- Whitespace set of Go strings.TrimSpace restricted to the ASCII space
characters (the error texts trimmed here contain no exotic Unicode
spaces). -/
def isGoSpace (c : Char) : Bool :=
  c = ' ' || c = '\t' || c = '\n' || c.toNat = 11 || c.toNat = 12 || c = '\r'

/-- Go strings.TrimSpace. -/
def trimSpace (cs : List Char) : List Char :=
  ((cs.dropWhile isGoSpace).reverse.dropWhile isGoSpace).reverse

/-- checker.go parseErrorToDiagnostic: recover a structured location from
the error text via the `path:line:col` pattern, else the `line N` pattern,
else point at line 1 column 1 of the input path. -/
def parseErrorToDiagnostic (errMsg : String) (defaultPath : String) :
    Diagnostic :=
  match findFileLoc errMsg.data with
  | some (fileCs, d1, d2) =>
      let messageParts := splitNColon 4 errMsg.data
      let message :=
        if messageParts.length = 4 then
          String.mk (trimSpace (messageParts.getD 3 []))
        else errMsg
      { code := "", message := message, severity := "error",
        file := String.mk fileCs,
        line := digitsToNat d1, column := digitsToNat d2 }
  | none =>
      match findLineN errMsg.data with
      | some d =>
          { code := "", message := errMsg, severity := "error",
            file := defaultPath, line := digitsToNat d, column := 1 }
      | none =>
          { code := "", message := errMsg, severity := "error",
            file := defaultPath, line := 1, column := 1 }

/-- checker.go CheckSchema: load without duplicate validation; a load
failure becomes the single diagnostic of the report; otherwise every
diagnostics-form validator result is appended, incrementing the error
counter and clearing validity each time.  (JSON marshalling, whose failure
is the only hard-error path of the Go function, is not modelled.) -/
def CheckSchema (path : String) (info : PathInfo) : CheckOutput :=
  let output := NewCheckOutput
  match loadSchemaWithoutValidation path info with
  | Except.error err =>
      let diagnostic := parseErrorToDiagnostic err path
      { output with
        diagnostics := output.diagnostics ++ [diagnostic],
        summary := { output.summary with
                      errors := output.summary.errors + 1, valid := false } }
  | Except.ok schema =>
      let duplicateDiagnostics := ValidateDuplicateTablesAsDiagnostics schema
      duplicateDiagnostics.foldl
        (fun output diag =>
          { output with
            diagnostics := output.diagnostics ++ [diag],
            summary := { output.summary with
                          errors := output.summary.errors + 1, valid := false } })
        output

/-! ### Claim theorems -/

/-- C7: the Expression Formatter is total and never fails: unrecognized
node kinds (the catch-all `other`, bare String nodes, a type cast with no
inner argument, SQL value-function operation codes outside 1..15, and a
function call without a leading name string) all render as the literal
placeholder "UNDEFINED_EXPRESSION"; type-cast nodes render as their inner
argument with the cast discarded; and the precision-qualified value
functions (codes 3, 5, 7, 9) render to exactly the same text as their
non-qualified counterparts (codes 2, 4, 6, 8).  Totality itself holds by
construction: `formatExpr` is a total Lean function. -/
theorem claim_C7_expression_formatter :
    formatExpr Node.other = "UNDEFINED_EXPRESSION" ∧
    (∀ s, formatExpr (Node.string_ s) = "UNDEFINED_EXPRESSION") ∧
    formatExpr (Node.typeCast none) = "UNDEFINED_EXPRESSION" ∧
    (∀ op : Int, (op < 1 ∨ 15 < op) →
      formatExpr (Node.sqlvalueFunction op) = "UNDEFINED_EXPRESSION") ∧
    (∀ args, formatExpr (Node.funcCall [] args) = "UNDEFINED_EXPRESSION") ∧
    (∀ e, formatExpr (Node.typeCast (some e)) = formatExpr e) ∧
    formatExpr (Node.sqlvalueFunction 3) = formatExpr (Node.sqlvalueFunction 2) ∧
    formatExpr (Node.sqlvalueFunction 5) = formatExpr (Node.sqlvalueFunction 4) ∧
    formatExpr (Node.sqlvalueFunction 7) = formatExpr (Node.sqlvalueFunction 6) ∧
    formatExpr (Node.sqlvalueFunction 9) = formatExpr (Node.sqlvalueFunction 8) := by
  refine ⟨rfl, fun s => rfl, rfl, ?_,
    fun args => by
      rw [formatExpr]
      intro funcName tail hcontra
      simp at hcontra,
    fun e => by rw [formatExpr], rfl, rfl, rfl, rfl⟩
  intro op h
  rw [formatExpr]
  rw [if_neg (show ¬ op = 1 by omega), if_neg (show ¬ op = 2 by omega),
    if_neg (show ¬ op = 3 by omega), if_neg (show ¬ op = 4 by omega),
    if_neg (show ¬ op = 5 by omega), if_neg (show ¬ op = 6 by omega),
    if_neg (show ¬ op = 7 by omega), if_neg (show ¬ op = 8 by omega),
    if_neg (show ¬ op = 9 by omega), if_neg (show ¬ op = 10 by omega),
    if_neg (show ¬ op = 11 by omega), if_neg (show ¬ op = 12 by omega),
    if_neg (show ¬ op = 13 by omega), if_neg (show ¬ op = 14 by omega),
    if_neg (show ¬ op = 15 by omega)]

/-- Witness for C7 at the concrete unrecognized operation code 16. -/
theorem claim_C7_witness :
    ((16 : Int) < 1 ∨ (15 : Int) < 16) ∧
    formatExpr (Node.sqlvalueFunction 16) = "UNDEFINED_EXPRESSION" :=
  ⟨Or.inr (by omega),
   claim_C7_expression_formatter.2.2.2.1 16 (Or.inr (by omega))⟩

/-- takeWhile stops inside a list containing an element failing the
predicate, so any appended tail is irrelevant. -/
theorem takeWhile_append_of_stop {α : Type} (p : α → Bool) (l tail : List α)
    (x : α) (hx : x ∈ l) (hpx : p x = false) :
    (l ++ tail).takeWhile p = l.takeWhile p := by
  rw [List.takeWhile_append, if_neg]
  intro hlen
  have hpre : l.takeWhile p <+: l := List.takeWhile_prefix p
  have heq := hpre.eq_of_length hlen
  have hmem := List.mem_takeWhile_imp (heq ▸ hx)
  rw [hpx] at hmem
  exact Bool.false_ne_true hmem

/-- The scanned-bytes-after-the-last-newline count is unchanged by a
non-final byte when a newline occurs later in scan order. -/
theorem takeWhile_reverse_cons_of_mem (c : Char) (rest : List Char)
    (hm : '\n' ∈ rest) :
    ((c :: rest).reverse.takeWhile fun x => x ≠ '\n') =
      rest.reverse.takeWhile fun x => x ≠ '\n' := by
  rw [List.reverse_cons]
  exact takeWhile_append_of_stop _ _ _ '\n' (List.mem_reverse.mpr hm) (by simp)

/-- The accumulator-passing loop of the position resolver computes: the
line advances by the number of newlines scanned, and the column is reset
to just after the last newline (or advances by the scanned length when no
newline occurs). -/
theorem lineColLoop_spec (l : List Char) (line col : Nat) :
    lineColLoop l line col =
      (line + l.count '\n',
       if '\n' ∈ l then
         1 + (l.reverse.takeWhile (fun c => c ≠ '\n')).length
       else col + l.length) := by
  induction l generalizing line col with
  | nil => simp [lineColLoop]
  | cons c rest ih =>
    by_cases hc : c = '\n'
    · subst hc
      rw [lineColLoop, if_pos rfl, ih]
      refine Prod.ext ?_ ?_
      · simp only [List.count_cons_self]
        omega
      · simp only [List.mem_cons, true_or, if_true]
        by_cases hm : '\n' ∈ rest
        · rw [if_pos hm, takeWhile_reverse_cons_of_mem _ _ hm]
        · rw [if_neg hm, List.reverse_cons]
          have hall : ∀ a ∈ rest.reverse, (decide (a ≠ '\n')) = true := by
            intro a ha
            rw [decide_eq_true_eq]
            intro haeq
            subst haeq
            exact hm (List.mem_reverse.mp ha)
          rw [List.takeWhile_append_of_pos hall]
          simp
    · rw [lineColLoop, if_neg hc, ih]
      have hmemiff : ('\n' ∈ c :: rest) ↔ ('\n' ∈ rest) := by
        simp only [List.mem_cons]
        constructor
        · rintro (h | h)
          · exact absurd h.symm hc
          · exact h
        · exact Or.inr
      refine Prod.ext ?_ ?_
      · simp only [List.count_cons_of_ne (Ne.symm hc)]
      · by_cases hm : '\n' ∈ rest
        · rw [if_pos hm, if_pos (hmemiff.mpr hm),
            takeWhile_reverse_cons_of_mem _ _ hm]
        · rw [if_neg hm, if_neg (fun h => hm (hmemiff.mp h))]
          simp only [List.length_cons]
          omega

/-- C9: the Position Resolver is total: a negative or past-the-end byte
offset yields (1, 1) rather than failing, and an in-range offset yields
the 1-based line obtained by counting the newlines among the first
`offset` bytes, with the column counting the bytes after the last such
newline. -/
theorem claim_C9_position_resolver (sql : List Char) (offset : Int) :
    ((offset < 0 ∨ (sql.length : Int) < offset) →
      byteOffsetToLineColumn sql offset = (1, 1)) ∧
    (0 ≤ offset → offset ≤ (sql.length : Int) →
      byteOffsetToLineColumn sql offset =
        (1 + (sql.take offset.toNat).count '\n',
         if '\n' ∈ sql.take offset.toNat then
           1 + ((sql.take offset.toNat).reverse.takeWhile (fun c => c ≠ '\n')).length
         else 1 + (sql.take offset.toNat).length)) := by
  constructor
  · intro h
    rw [byteOffsetToLineColumn, if_pos h]
  · intro h0 hle
    rw [byteOffsetToLineColumn, if_neg (by omega)]
    exact lineColLoop_spec _ 1 1

/-- Witness for C9 at a concrete out-of-range and a concrete in-range
offset of the text "ab\ncd". -/
theorem claim_C9_witness :
    byteOffsetToLineColumn "ab\ncd".data 99 = (1, 1) ∧
    byteOffsetToLineColumn "ab\ncd".data 4 = (2, 2) := by
  constructor
  · exact (claim_C9_position_resolver "ab\ncd".data 99).1 (by decide)
  · have h := (claim_C9_position_resolver "ab\ncd".data 4).2 (by decide) (by decide)
    rw [h]
    decide

/-- The name parts of a TypeName (the String-node svals, in order). -/
def typeNameParts (typeName : TypeName) : List String :=
  typeName.names.filterMap fun n =>
    match n with
    | Node.string_ sval => some sval
    | _ => none

/-- The base type text before normalization: name parts joined with ".",
keeping only the trailing part when the leading part is the parser's
internal pg_catalog qualifier. -/
def rawTypeBase (typeName : TypeName) : String :=
  let parts := typeNameParts typeName
  let rawBase := String.intercalate "." parts
  if parts.length > 1 ∧ parts.head? = some "pg_catalog" then
    (parts.getLast?).getD rawBase
  else rawBase

/-- The parenthesized comma-joined integer type modifiers, or "" when no
integer modifier is present. -/
def typmodSuffix (typeName : TypeName) : String :=
  let mods := typeName.typmods.filterMap fun m =>
    match m with
    | Node.aConst (AConstVal.ival i) _ => some (toString i)
    | _ => none
  if mods.length > 0 then "(" ++ String.intercalate "," mods ++ ")" else ""

/-- The "[]" suffix appended when the type carries array-bound metadata. -/
def arrayBoundsSuffix (typeName : TypeName) : String :=
  if typeName.arrayBounds.length > 0 then "[]" else ""

/-- C5: type rendering joins the name parts with ".", drops a leading
pg_catalog qualifier keeping only the trailing part, maps the result
through the case-insensitive exact-match table (int8 to bigint,
timestamptz to timestamp with time zone, with unmapped names passing
through unchanged), then appends the parenthesized comma-joined integer
type modifiers and "[]" for array-bound metadata. -/
theorem claim_C5_type_rendering :
    (∀ typeName : TypeName, typeName.names ≠ [] →
      formatTypeName typeName =
        normalizePostgreSQLType (rawTypeBase typeName) ++ typmodSuffix typeName ++
          arrayBoundsSuffix typeName) ∧
    normalizePostgreSQLType "int8" = "bigint" ∧
    normalizePostgreSQLType "INT8" = "bigint" ∧
    normalizePostgreSQLType "timestamptz" = "timestamp with time zone" ∧
    (∀ s v, List.lookup (lowerString s) typeMap = some v →
      normalizePostgreSQLType s = v) ∧
    (∀ s, List.lookup (lowerString s) typeMap = none →
      normalizePostgreSQLType s = s) := by
  refine ⟨?_, rfl, by decide, rfl, ?_, ?_⟩
  · rintro ⟨names, typmods, arrayBounds⟩ hne
    rw [formatTypeName, if_neg (fun h => hne (List.length_eq_zero.mp h))]
    simp only [rawTypeBase, typmodSuffix, arrayBoundsSuffix, typeNameParts]
    cases typmods with
    | nil =>
      cases arrayBounds <;>
        simp [String.append_empty]
    | cons m ms =>
      by_cases hmods : 0 < ((m :: ms).filterMap fun m =>
        match m with
        | Node.aConst (AConstVal.ival i) _ => some (toString i)
        | _ => none).length
      · cases arrayBounds <;>
          simp [hmods, String.append_empty, String.append_assoc]
      · cases arrayBounds <;>
          simp [hmods, String.append_empty, String.append_assoc]
  · intro s v h
    rw [normalizePostgreSQLType, h]
  · intro s h
    rw [normalizePostgreSQLType, h]

/-- A concrete TypeName exercising modifier rendering: varchar(255). -/
def tnVarchar255 : TypeName :=
  { names := [Node.string_ "varchar"],
    typmods := [Node.aConst (AConstVal.ival 255) false],
    arrayBounds := [] }

/-- Witness for C5: the decomposition at varchar(255), a case-insensitive
hit (BOOL), and a pass-through miss (uuid). -/
theorem claim_C5_witness :
    (formatTypeName tnVarchar255 =
      normalizePostgreSQLType (rawTypeBase tnVarchar255) ++
        typmodSuffix tnVarchar255 ++ arrayBoundsSuffix tnVarchar255) ∧
    normalizePostgreSQLType "BOOL" = "boolean" ∧
    normalizePostgreSQLType "uuid" = "uuid" :=
  ⟨claim_C5_type_rendering.1 tnVarchar255 (List.cons_ne_nil _ _),
   claim_C5_type_rendering.2.2.2.2.1 "BOOL" "boolean" rfl,
   claim_C5_type_rendering.2.2.2.2.2 "uuid" rfl⟩

/-- The pg_query AST of the README example statement
CREATE TABLE users (id BIGINT PRIMARY KEY, email TEXT NOT NULL,
created_at TIMESTAMP WITH TIME ZONE DEFAULT NOW());
as the PostgreSQL grammar produces it: BIGINT and TIMESTAMP WITH TIME
ZONE are keyword types lowered to pg_catalog.int8 / pg_catalog.timestamptz,
TEXT is a generic identifier type, and the unquoted function identifier
NOW is lowercased by the scanner to the FuncCall name "now". -/
def createUsersStmt : CreateStmt :=
  { relation := some { schemaname := "", relname := "users" },
    tableElts :=
      [ TableElt.columnDef
          { colname := "id",
            typeName := some
              { names := [Node.string_ "pg_catalog", Node.string_ "int8"],
                typmods := [], arrayBounds := [] },
            constraints :=
              [ConstraintItem.constraint
                { contype := ConstrType.primary, rawExpr := none }] },
        TableElt.columnDef
          { colname := "email",
            typeName := some
              { names := [Node.string_ "text"], typmods := [], arrayBounds := [] },
            constraints :=
              [ConstraintItem.constraint
                { contype := ConstrType.notnull, rawExpr := none }] },
        TableElt.columnDef
          { colname := "created_at",
            typeName := some
              { names := [Node.string_ "pg_catalog", Node.string_ "timestamptz"],
                typmods := [], arrayBounds := [] },
            constraints :=
              [ConstraintItem.constraint
                { contype := ConstrType.defaultValue,
                  rawExpr := some (Node.funcCall [Node.string_ "now"] []) }] } ] }

/-- The lowering context of the example statement: its own SQL text, no
file name. -/
def usersCtx : ParseContext :=
  { sql := ("CREATE TABLE users (id BIGINT PRIMARY KEY, email TEXT NOT NULL, " ++
      "created_at TIMESTAMP WITH TIME ZONE DEFAULT NOW());").data,
    filename := "" }

/-- The table the example statement actually lowers to. -/
def usersTable : Table :=
  { name := "users",
    schema := "",
    columns :=
      [ { name := "id", type := "bigint", nullable := false,
          isPrimaryKey := true, default := none },
        { name := "email", type := "text", nullable := false,
          isPrimaryKey := false, default := none },
        { name := "created_at", type := "timestamp with time zone",
          nullable := true, isPrimaryKey := false, default := some "now()" } ],
    rlsEnabled := false,
    sourceLocation := some { file := "", line := 1, column := 1 } }

/-- C2 counterexample: lowering the example statement succeeds, but the
created_at column's default-value text is "now()" (the scanner lowercases
the unquoted identifier NOW before the formatter runs), so the claimed
default text "NOW()" does not hold. -/
theorem claim_C2_counterexample :
    parseCreateTable createUsersStmt usersCtx 0 = Except.ok usersTable ∧
    usersTable.columns.map Column.default = [none, none, some "now()"] ∧
    (("now()" : String) == "NOW()") = false :=
  ⟨rfl, rfl, rfl⟩

/-- C2 (amended): lowering the single example statement produces exactly
one Table named "users" with an empty stored schema and three columns in
source order, where id is primary-key and non-nullable, email is
non-nullable with no default, and created_at is nullable with
default-value text exactly "now()" (not "NOW()": the parser lowercases
the unquoted function identifier). -/
theorem claim_C2_create_table_lowering :
    parseCreateTable createUsersStmt usersCtx 0 = Except.ok usersTable :=
  rfl

/-- Equality of every Table field except the row-level-security flag. -/
def tableFrameEq (a b : Table) : Prop :=
  a.name = b.name ∧ a.schema = b.schema ∧ a.columns = b.columns ∧
    a.sourceLocation = b.sourceLocation

/-- tableFrameEq is reflexive. -/
theorem tableFrameEq_refl (t : Table) : tableFrameEq t t :=
  ⟨rfl, rfl, rfl, rfl⟩

/-- tableFrameEq is transitive. -/
theorem tableFrameEq_trans {a b c : Table} (h1 : tableFrameEq a b)
    (h2 : tableFrameEq b c) : tableFrameEq a c :=
  ⟨h1.1.trans h2.1, h1.2.1.trans h2.2.1, h1.2.2.1.trans h2.2.2.1,
   h1.2.2.2.trans h2.2.2.2⟩

/-- Writing the RLS flag preserves the list length. -/
theorem setRLSAt_length (ts : List Table) (i : Nat) (b : Bool) :
    (setRLSAt ts i b).length = ts.length := by
  induction ts generalizing i with
  | nil => rfl
  | cons t ts ih =>
    cases i with
    | zero => rfl
    | succ n => simp [setRLSAt, ih]

/-- Writing the RLS flag at index `i` leaves every other position
unchanged. -/
theorem setRLSAt_getD_ne (ts : List Table) (i j : Nat) (b : Bool)
    (hne : j ≠ i) :
    (setRLSAt ts i b).getD j default = ts.getD j default := by
  induction ts generalizing i j with
  | nil => rfl
  | cons t ts ih =>
    cases i with
    | zero =>
      cases j with
      | zero => exact absurd rfl hne
      | succ m => simp [setRLSAt]
    | succ n =>
      cases j with
      | zero => simp [setRLSAt]
      | succ m =>
        simp only [setRLSAt, List.getD_cons_succ]
        exact ih n m (fun h => hne (by omega))

/-- Writing the RLS flag changes no other field at any position. -/
theorem setRLSAt_frame (ts : List Table) (i : Nat) (b : Bool) (j : Nat) :
    tableFrameEq ((setRLSAt ts i b).getD j default) (ts.getD j default) := by
  induction ts generalizing i j with
  | nil => exact tableFrameEq_refl _
  | cons t ts ih =>
    cases i with
    | zero =>
      cases j with
      | zero => exact ⟨rfl, rfl, rfl, rfl⟩
      | succ m => exact tableFrameEq_refl _
    | succ n =>
      cases j with
      | zero => exact tableFrameEq_refl _
      | succ m =>
        simp only [setRLSAt, List.getD_cons_succ]
        exact ih n m

/-- One ALTER TABLE sub-command preserves the table-list length. -/
theorem applyAlterCmd_length (idx : Nat) (ts : List Table)
    (cmd : AlterCmdItem) :
    (applyAlterCmd idx ts cmd).length = ts.length := by
  cases cmd with
  | alterTableCmd alterCmd =>
    cases alterCmd with
    | mk subtype =>
      cases subtype <;> simp [applyAlterCmd, setRLSAt_length]
  | otherCmd => rfl

/-- One ALTER TABLE sub-command leaves every position other than the
matched index unchanged. -/
theorem applyAlterCmd_getD_ne (idx : Nat) (ts : List Table)
    (cmd : AlterCmdItem) (j : Nat) (hne : j ≠ idx) :
    (applyAlterCmd idx ts cmd).getD j default = ts.getD j default := by
  cases cmd with
  | alterTableCmd alterCmd =>
    cases alterCmd with
    | mk subtype =>
      cases subtype with
      | enableRowSecurity => exact setRLSAt_getD_ne _ _ _ _ hne
      | disableRowSecurity => exact setRLSAt_getD_ne _ _ _ _ hne
      | otherType => rfl
  | otherCmd => rfl

/-- One ALTER TABLE sub-command changes no field but the RLS flag at any
position. -/
theorem applyAlterCmd_frame (idx : Nat) (ts : List Table)
    (cmd : AlterCmdItem) (j : Nat) :
    tableFrameEq ((applyAlterCmd idx ts cmd).getD j default)
      (ts.getD j default) := by
  cases cmd with
  | alterTableCmd alterCmd =>
    cases alterCmd with
    | mk subtype =>
      cases subtype <;>
        first
          | exact setRLSAt_frame _ _ _ _
          | exact tableFrameEq_refl _
  | otherCmd => exact tableFrameEq_refl _

/-- The command loop preserves the table-list length. -/
theorem rlsFold_length (cmds : List AlterCmdItem) (idx : Nat) :
    ∀ ts : List Table, (cmds.foldl (applyAlterCmd idx) ts).length = ts.length := by
  induction cmds with
  | nil => intro ts; rfl
  | cons cmd cmds ih =>
    intro ts
    rw [List.foldl_cons, ih, applyAlterCmd_length]

/-- The command loop leaves every position other than the matched index
unchanged. -/
theorem rlsFold_getD_ne (cmds : List AlterCmdItem) (idx j : Nat)
    (hne : j ≠ idx) :
    ∀ ts : List Table,
      (cmds.foldl (applyAlterCmd idx) ts).getD j default = ts.getD j default := by
  induction cmds with
  | nil => intro ts; rfl
  | cons cmd cmds ih =>
    intro ts
    rw [List.foldl_cons, ih, applyAlterCmd_getD_ne _ _ _ _ hne]

/-- The command loop changes no field but the RLS flag at any position. -/
theorem rlsFold_frame (cmds : List AlterCmdItem) (idx j : Nat) :
    ∀ ts : List Table,
      tableFrameEq ((cmds.foldl (applyAlterCmd idx) ts).getD j default)
        (ts.getD j default) := by
  induction cmds with
  | nil => intro ts; exact tableFrameEq_refl _
  | cons cmd cmds ih =>
    intro ts
    rw [List.foldl_cons]
    exact tableFrameEq_trans (ih _) (applyAlterCmd_frame _ _ _ _)

/-- findIdx? returns the least index satisfying the predicate, and that
index is in range. -/
theorem findIdx?_least {α : Type} [Inhabited α] (p : α → Bool) (l : List α)
    (i : Nat) (h : l.findIdx? p = some i) :
    i < l.length ∧ p (l.getD i default) = true ∧
      ∀ k, k < i → p (l.getD k default) = false := by
  induction l generalizing i with
  | nil => simp at h
  | cons x xs ih =>
    rw [List.findIdx?_cons] at h
    by_cases hp : p x
    · rw [if_pos hp] at h
      injection h with h
      subst h
      exact ⟨by simp, by simpa using hp, fun k hk => absurd hk (by omega)⟩
    · rw [if_neg hp] at h
      rw [show (0 + 1 : Nat) = 1 from rfl, ← Nat.zero_add 1,
        List.findIdx?_succ] at h
      obtain ⟨j, hj, rfl⟩ := Option.map_eq_some'.mp h
      obtain ⟨h1, h2, h3⟩ := ih j hj
      refine ⟨by simp; omega, by simpa using h2, ?_⟩
      intro k hk
      cases k with
      | zero => simpa using eq_false_of_ne_true hp
      | succ k =>
        rw [List.getD_cons_succ]
        exact h3 k (by omega)

/-- C10: for every schema state and ALTER TABLE statement, an accepted
statement modifies at most one table, namely the earliest (lowest-index)
table whose effective schema-qualified name (empty schema treated as
"public") equals the resolved target; only that table's
row-level-security flag can change, every other table is unchanged, and
every table keeps its name, schema, columns and source location, even
when several tables match the target. -/
theorem claim_C10_alter_table_frame (schema : Schema) (stmt : AlterTableStmt)
    (out : Schema) (h : parseAlterTable schema stmt = Except.ok out) :
    out.dialect = schema.dialect ∧
    out.tables.length = schema.tables.length ∧
    (∀ j, tableFrameEq (out.tables.getD j default)
      (schema.tables.getD j default)) ∧
    (∀ relation, stmt.relation = some relation →
      (alterTargetIndex schema relation = none → out = schema) ∧
      (∀ i, alterTargetIndex schema relation = some i →
        alterMatchPred relation (schema.tables.getD i default) = true ∧
        (∀ k, k < i →
          alterMatchPred relation (schema.tables.getD k default) = false) ∧
        (∀ j, j ≠ i →
          out.tables.getD j default = schema.tables.getD j default))) := by
  cases hrel : stmt.relation with
  | none =>
    simp only [parseAlterTable, hrel] at h
    exact Except.noConfusion h
  | some relation =>
    simp only [parseAlterTable, hrel] at h
    cases hidx : alterTargetIndex schema relation with
    | none =>
      rw [hidx] at h
      injection h with h
      subst h
      refine ⟨rfl, rfl, fun j => tableFrameEq_refl _, ?_⟩
      intro relation2 hrel2
      injection hrel2 with hrel2
      subst hrel2
      refine ⟨fun _ => rfl, fun i hi => ?_⟩
      rw [hidx] at hi
      cases hi
    | some idx =>
      rw [hidx] at h
      injection h with h
      subst h
      refine ⟨rfl, rlsFold_length _ _ _, fun j => rlsFold_frame _ _ _ _, ?_⟩
      intro relation2 hrel2
      injection hrel2 with hrel2
      subst hrel2
      refine ⟨?_, fun i hi => ?_⟩
      · intro hcontra
        rw [hidx] at hcontra
        cases hcontra
      rw [hidx] at hi
      injection hi with hi
      subst hi
      obtain ⟨hlt, hmatch, hleast⟩ :=
        findIdx?_least (alterMatchPred relation) schema.tables idx hidx
      exact ⟨hmatch, hleast, fun j hj => rlsFold_getD_ne _ _ _ hj _⟩

/-- A three-table schema where the second and third tables share the
effective key public.users (one stored-empty-schema, one explicit). -/
def rlsSchemaW : Schema :=
  { tables :=
      [ { name := "users", schema := "auth", columns := [],
          rlsEnabled := false,
          sourceLocation := some { file := "a.lp.sql", line := 1, column := 1 } },
        { name := "users", schema := "", columns := [],
          rlsEnabled := false,
          sourceLocation := some { file := "b.lp.sql", line := 1, column := 1 } },
        { name := "users", schema := "public", columns := [],
          rlsEnabled := false,
          sourceLocation := some { file := "c.lp.sql", line := 1, column := 1 } } ],
    dialect := Dialect.postgres }

/-- ALTER TABLE users ENABLE ROW SECURITY (unqualified target). -/
def rlsStmtW : AlterTableStmt :=
  { relation := some { schemaname := "", relname := "users" },
    cmds :=
      [AlterCmdItem.alterTableCmd
        { subtype := AlterTableType.enableRowSecurity }] }

/-- The schema after the ALTER: only the earliest public.users match (the
index-1 table) has its flag set. -/
def rlsOutW : Schema :=
  { rlsSchemaW with
    tables :=
      rlsSchemaW.tables.set 1
        { name := "users", schema := "", columns := [], rlsEnabled := true,
          sourceLocation := some { file := "b.lp.sql", line := 1, column := 1 } } }

/-- Witness for C10 on the three-table schema: the later duplicate (index
2) is untouched and the length is preserved. -/
theorem claim_C10_witness :
    rlsOutW.tables.getD 2 default = rlsSchemaW.tables.getD 2 default ∧
    rlsOutW.tables.length = rlsSchemaW.tables.length := by
  have h := claim_C10_alter_table_frame rlsSchemaW rlsStmtW rlsOutW rfl
  refine ⟨?_, h.2.1⟩
  have h2 := (h.2.2.2 { schemaname := "", relname := "users" } rfl).2 1 rfl
  exact h2.2.2 2 (by omega)

/-- The effective schema of a stored schema string: empty defaults to
"public" (applied at comparison time by both validators and by
parseAlterTable). -/
def effectiveSchema (s : String) : String := if s = "" then "public" else s

/-- The composite duplicate key is the effective schema, a dot, and the
table name. -/
theorem tableKey_eq_effective (t : Table) :
    tableKey t = effectiveSchema t.schema ++ "." ++ t.name := rfl

/-- Two tables with the same name but different effective schemas have
different composite keys. -/
theorem tableKey_ne_of (t1 t2 : Table) (hn : t1.name = t2.name)
    (hs : effectiveSchema t1.schema ≠ effectiveSchema t2.schema) :
    tableKey t1 ≠ tableKey t2 := by
  intro hkey
  apply hs
  rw [tableKey_eq_effective, tableKey_eq_effective, hn] at hkey
  have hd := congrArg String.data hkey
  simp only [String.data_append] at hd
  exact String.ext (List.append_cancel_right (List.append_cancel_right hd))

/-- Applying a present source location to a fresh diagnostic copies the
location's own file, line and column (an empty location file leaves the
already-empty diagnostic file, which equals it). -/
theorem applySourceLocation_some (t : Table) (loc : SourceLocation)
    (h : t.sourceLocation = some loc) (d : Diagnostic) (hd : d.file = "") :
    applySourceLocation t d =
      { d with file := loc.file, line := loc.line, column := loc.column } := by
  simp only [applySourceLocation, h]
  obtain ⟨code, message, severity, file, line, column⟩ := d
  simp only at hd
  subst hd
  by_cases hf : loc.file = ""
  · rw [if_neg (fun hne => hne hf), hf]
  · rw [if_pos hf]

/-- C1: duplicate detection keys tables by (effective schema, table name)
with an empty schema treated as "public": two tables with the same name
but different effective schemas produce no duplicate diagnostic, while a
pair with the same composite key (including one stored-empty-schema and
one explicit "public" form) yields exactly 2 diagnostics, the first worded
as first occurrence, the second as duplicate definition, both with
severity "error" and each carrying its own occurrence's source
location. -/
theorem claim_C1_duplicate_detection (t1 t2 : Table) (loc1 loc2 : SourceLocation)
    (h1 : t1.sourceLocation = some loc1) (h2 : t2.sourceLocation = some loc2) :
    (t1.name = t2.name → effectiveSchema t1.schema ≠ effectiveSchema t2.schema →
      ValidateDuplicateTablesAsDiagnostics
        { tables := [t1, t2], dialect := Dialect.postgres } = []) ∧
    (tableKey t1 = tableKey t2 →
      ValidateDuplicateTablesAsDiagnostics
        { tables := [t1, t2], dialect := Dialect.postgres } =
        [ { code := "",
            message := "Table " ++ goQuote (tableKey t1) ++
              " is defined multiple times (first occurrence)",
            severity := "error", file := loc1.file, line := loc1.line,
            column := loc1.column },
          { code := "",
            message := "Table " ++ goQuote (tableKey t1) ++
              " is already defined (duplicate definition)",
            severity := "error", file := loc2.file, line := loc2.line,
            column := loc2.column } ]) := by
  constructor
  · intro hn hs
    have hk := tableKey_ne_of t1 t2 hn hs
    simp only [ValidateDuplicateTablesAsDiagnostics, buildSeen, buildSeenGo,
      insertSeen, if_neg hk]
    simp [List.foldl]
  · intro hkey
    simp only [ValidateDuplicateTablesAsDiagnostics, buildSeen, buildSeenGo,
      insertSeen, if_pos hkey]
    simp only [List.foldl, diagnosticsForGroup, diagnosticsForGroupGo,
      List.getD_cons_zero, List.getD_cons_succ]
    rw [if_pos (by decide)]
    simp only [if_pos rfl, if_neg (Nat.one_ne_zero), List.nil_append]
    rw [applySourceLocation_some t1 loc1 h1 _ rfl,
      applySourceLocation_some t2 loc2 h2 _ rfl]
    simp

/-- users in the public schema at a concrete location. -/
def dupTa : Table :=
  { name := "users", schema := "public", columns := [], rlsEnabled := false,
    sourceLocation := some { file := "p.lp.sql", line := 2, column := 3 } }

/-- users in the auth schema at a concrete location. -/
def dupTb : Table :=
  { name := "users", schema := "auth", columns := [], rlsEnabled := false,
    sourceLocation := some { file := "q.lp.sql", line := 4, column := 5 } }

/-- users with a stored-empty schema at a concrete location. -/
def dupTc : Table :=
  { name := "users", schema := "", columns := [], rlsEnabled := false,
    sourceLocation := some { file := "r.lp.sql", line := 6, column := 7 } }

/-- Witness for C1: public.users/auth.users coexist with no diagnostics,
and the stored-empty-schema form collides with the explicit public form
producing the two worded diagnostics at their own locations. -/
theorem claim_C1_witness :
    ValidateDuplicateTablesAsDiagnostics
      { tables := [dupTa, dupTb], dialect := Dialect.postgres } = [] ∧
    ValidateDuplicateTablesAsDiagnostics
      { tables := [dupTc, dupTa], dialect := Dialect.postgres } =
      [ { code := "",
          message := "Table \"public.users\" is defined multiple times (first occurrence)",
          severity := "error", file := "r.lp.sql", line := 6, column := 7 },
        { code := "",
          message := "Table \"public.users\" is already defined (duplicate definition)",
          severity := "error", file := "p.lp.sql", line := 2, column := 3 } ] := by
  constructor
  · exact (claim_C1_duplicate_detection dupTa dupTb _ _ rfl rfl).1 rfl (by decide)
  · exact ((claim_C1_duplicate_detection dupTc dupTa _ _ rfl rfl).2 rfl).trans
      (by decide)

/-- The fold of the diagnostics-form validator emits exactly the
concatenated per-group diagnostics of the offending (length > 1) groups. -/
theorem diag_fold_eq (schema : Schema) :
    ∀ (seen : List (String × List Nat)) (acc : List Diagnostic),
      seen.foldl (fun diagnostics g =>
        if g.2.length > 1 then diagnostics ++ diagnosticsForGroup schema g
        else diagnostics) acc =
        acc ++ ((seen.filter fun g => g.2.length > 1).flatMap
          (diagnosticsForGroup schema)) := by
  intro seen
  induction seen with
  | nil => intro acc; simp
  | cons g rest ih =>
    intro acc
    rw [List.foldl_cons]
    by_cases hg : g.2.length > 1
    · rw [if_pos hg, ih, List.filter_cons_of_pos (by simpa using hg)]
      simp [List.append_assoc]
    · rw [if_neg hg, ih, List.filter_cons_of_neg (by simpa using hg)]

/-- The fold of the hard-fail validator collects exactly one message per
offending group. -/
theorem msgs_fold_eq (schema : Schema) :
    ∀ (seen : List (String × List Nat)) (acc : List String),
      seen.foldl (fun msgs g =>
        if g.2.length > 1 then msgs ++ [duplicateErrorMessage schema g]
        else msgs) acc =
        acc ++ ((seen.filter fun g => g.2.length > 1).map
          (duplicateErrorMessage schema)) := by
  intro seen
  induction seen with
  | nil => intro acc; simp
  | cons g rest ih =>
    intro acc
    rw [List.foldl_cons]
    by_cases hg : g.2.length > 1
    · rw [if_pos hg, ih, List.filter_cons_of_pos (by simpa using hg)]
      simp [List.append_assoc]
    · rw [if_neg hg, ih, List.filter_cons_of_neg (by simpa using hg)]

/-- A group with at least one occurrence yields at least one diagnostic. -/
theorem diagnosticsForGroup_ne_nil (schema : Schema) (g : String × List Nat)
    (hg : 0 < g.2.length) : diagnosticsForGroup schema g ≠ [] := by
  obtain ⟨k, idxs⟩ := g
  cases idxs with
  | nil => simp at hg
  | cons a rest => simp [diagnosticsForGroup, diagnosticsForGroupGo]

/-- C4: the two duplicate-check variants are equivalent modulo output
shape: the hard-fail validator returns an error exactly when the
diagnostics-form validator returns a non-empty list, and both outputs are
determined by the same offending groups, i.e. the same set of (effective
schema, table name) keys with the same occurrence indices per key (in the
model's canonical first-occurrence order; Go iterates its map in an
unspecified cross-key order). -/
theorem claim_C4_validator_equivalence (s : Schema) :
    ((validateNoDuplicateTables s).isSome ↔
      ValidateDuplicateTablesAsDiagnostics s ≠ []) ∧
    ValidateDuplicateTablesAsDiagnostics s =
      (offendingGroups s).flatMap (diagnosticsForGroup s) ∧
    validateNoDuplicateTables s =
      (if offendingGroups s = [] then none
       else some (String.intercalate "; "
         ((offendingGroups s).map (duplicateErrorMessage s)))) := by
  have hdiag : ValidateDuplicateTablesAsDiagnostics s =
      (offendingGroups s).flatMap (diagnosticsForGroup s) := by
    rw [ValidateDuplicateTablesAsDiagnostics]
    rw [diag_fold_eq s (buildSeen s.tables) []]
    rw [List.nil_append]
    rfl
  have hmsg : validateNoDuplicateTables s =
      (if offendingGroups s = [] then none
       else some (String.intercalate "; "
         ((offendingGroups s).map (duplicateErrorMessage s)))) := by
    rw [validateNoDuplicateTables]
    rw [msgs_fold_eq s (buildSeen s.tables) []]
    simp only [List.nil_append]
    by_cases ho : offendingGroups s = []
    · rw [if_pos ho]
      have : (buildSeen s.tables).filter (fun g => g.2.length > 1) = [] := ho
      rw [this]
      simp
    · rw [if_neg ho]
      have hlen : ((offendingGroups s).map (duplicateErrorMessage s)).length > 0 := by
        rw [List.length_map]
        exact List.length_pos.mpr ho
      have : ((buildSeen s.tables).filter (fun g => g.2.length > 1)).map
          (duplicateErrorMessage s) = (offendingGroups s).map (duplicateErrorMessage s) := rfl
      rw [this, if_pos hlen]
  refine ⟨?_, hdiag, hmsg⟩
  constructor
  · intro hsome
    rw [hdiag]
    rw [hmsg] at hsome
    by_cases ho : offendingGroups s = []
    · rw [if_pos ho] at hsome
      simp at hsome
    · obtain ⟨g, rest, hgl⟩ : ∃ g rest, offendingGroups s = g :: rest := by
        cases hq : offendingGroups s with
        | nil => exact absurd hq ho
        | cons a b => exact ⟨a, b, rfl⟩
      rw [hgl]
      simp only [List.flatMap_cons]
      intro hcontra
      have hnil : diagnosticsForGroup s g = [] := by
        cases hdg : diagnosticsForGroup s g with
        | nil => rfl
        | cons d ds =>
          rw [hdg] at hcontra
          simp at hcontra
      have hmem : g ∈ offendingGroups s := by
        rw [hgl]
        exact List.mem_cons_self _ _
      have hg : g.2.length > 1 := by
        have := List.of_mem_filter hmem
        simpa using this
      exact diagnosticsForGroup_ne_nil s g (by omega) hnil
  · intro hne
    rw [hmsg]
    by_cases ho : offendingGroups s = []
    · exfalso
      apply hne
      rw [hdiag, ho]
      rfl
    · rw [if_neg ho]
      rfl

/-- Bytewise string comparison is total. -/
theorem charListLe_total (as bs : List Char) :
    charListLe as bs = true ∨ charListLe bs as = true := by
  induction as generalizing bs with
  | nil => left; rfl
  | cons a as ih =>
    cases bs with
    | nil => right; rfl
    | cons b bs =>
      rw [charListLe, charListLe]
      by_cases h1 : a.toNat < b.toNat
      · left; rw [if_pos h1]
      · by_cases h2 : b.toNat < a.toNat
        · right; rw [if_pos h2]
        · rw [if_neg h1, if_neg h2, if_neg h2, if_neg h1]
          exact ih bs

/-- Bytewise string comparison is transitive. -/
theorem charListLe_trans (as bs cs : List Char)
    (h1 : charListLe as bs = true) (h2 : charListLe bs cs = true) :
    charListLe as cs = true := by
  induction as generalizing bs cs with
  | nil => rfl
  | cons a as ih =>
    cases bs with
    | nil => rw [charListLe] at h1; cases h1
    | cons b bs =>
      cases cs with
      | nil => rw [charListLe] at h2; cases h2
      | cons c cs =>
        rw [charListLe] at h1 h2 ⊢
        have hab : a.toNat < b.toNat ∨
            (a.toNat = b.toNat ∧ charListLe as bs = true) := by
          by_cases h : a.toNat < b.toNat
          · exact Or.inl h
          · rw [if_neg h] at h1
            by_cases h3 : b.toNat < a.toNat
            · rw [if_pos h3] at h1; cases h1
            · rw [if_neg h3] at h1; exact Or.inr ⟨by omega, h1⟩
        have hbc : b.toNat < c.toNat ∨
            (b.toNat = c.toNat ∧ charListLe bs cs = true) := by
          by_cases h : b.toNat < c.toNat
          · exact Or.inl h
          · rw [if_neg h] at h2
            by_cases h3 : c.toNat < b.toNat
            · rw [if_pos h3] at h2; cases h2
            · rw [if_neg h3] at h2; exact Or.inr ⟨by omega, h2⟩
        rcases hab with h | ⟨heq1, hrec1⟩
        · rcases hbc with h3 | ⟨heq2, hrec2⟩
          · rw [if_pos (by omega : a.toNat < c.toNat)]
          · rw [if_pos (by omega : a.toNat < c.toNat)]
        · rcases hbc with h3 | ⟨heq2, hrec2⟩
          · rw [if_pos (by omega : a.toNat < c.toNat)]
          · rw [if_neg (by omega : ¬ a.toNat < c.toNat),
              if_neg (by omega : ¬ c.toNat < a.toNat)]
            exact ih bs cs hrec1 hrec2

/-- The tables a directory entry contributes: the tables of its parse
result (empty for a failed parse, which aborts the load anyway). -/
def entryTables (e : DirEntry) : List Table :=
  match e.parseResult with
  | Except.ok schema => schema.tables
  | Except.error _ => []

/-- A successful per-file load-and-concatenate fold returns exactly the
concatenation, in fold order, of each file's parsed tables. -/
theorem loadFold_ok (dir : String) :
    ∀ (l : List DirEntry) (acc res : List Table),
      (l.foldlM (fun allTables file =>
        match loadSQLSchemaFromBytes file.parseResult with
        | Except.error parseErr =>
            Except.error
              ("failed to parse SQL file " ++ entryPath dir file ++ ": " ++ parseErr)
        | Except.ok schema => Except.ok (allTables ++ schema.tables)) acc
        = Except.ok res) →
      res = acc ++ l.flatMap entryTables := by
  intro l
  induction l with
  | nil =>
    intro acc res h
    injection h with h
    simp [h.symm]
  | cons e l ih =>
    intro acc res h
    rw [List.foldlM_cons] at h
    cases hle : loadSQLSchemaFromBytes e.parseResult with
    | error err =>
      rw [hle] at h
      exact Except.noConfusion h
    | ok sch =>
      rw [hle] at h
      have hres := ih (acc ++ sch.tables) res h
      have hte : entryTables e = sch.tables := by
        rw [entryTables]
        cases hpr : e.parseResult with
        | error e2 =>
          simp only [loadSQLSchemaFromBytes, hpr] at hle
          exact Except.noConfusion hle
        | ok sch0 =>
          simp only [loadSQLSchemaFromBytes, hpr] at hle
          cases hv : validateNoDuplicateTables sch0 with
          | some msg =>
            simp only [hv] at hle
            exact Except.noConfusion hle
          | none =>
            simp only [hv] at hle
            injection hle with hle
            rw [hle]
      rw [hres, List.flatMap_cons, hte, List.append_assoc]

/-- C3: for every directory whose entries are all recognized-suffix schema
files, the aggregate Schema the loader returns lists tables by sorting the
file list by full path (bytewise lexicographically) and concatenating each
file's tables in parse order: the returned table sequence is exactly that
concatenation, and the processing order is a sorted permutation of the
directory listing. -/
theorem claim_C3_directory_ordering (dir : String) (entries : List DirEntry) (s : Schema)
    (hall : ∀ e ∈ entries, isSchemaFileEntry e = true)
    (h : loadSchemaFromDir dir entries = Except.ok s) :
    s.tables = (sortByPath dir entries).flatMap entryTables ∧
    (sortByPath dir entries).Perm entries ∧
    List.Pairwise
      (fun a b => stringLeB (entryPath dir a) (entryPath dir b) = true)
      (sortByPath dir entries) := by
  have hfil : entries.filter isSchemaFileEntry = entries :=
    List.filter_eq_self.mpr hall
  simp only [loadSchemaFromDir, hfil] at h
  by_cases hemp : entries.length = 0
  · rw [if_pos hemp] at h
    exact Except.noConfusion h
  · rw [if_neg hemp] at h
    cases hfold : (sortByPath dir entries).foldlM (fun allTables file =>
        match loadSQLSchemaFromBytes file.parseResult with
        | Except.error parseErr =>
            Except.error
              ("failed to parse SQL file " ++ entryPath dir file ++ ": " ++ parseErr)
        | Except.ok schema => Except.ok (allTables ++ schema.tables)) [] with
    | error e =>
      simp only [hfold] at h
      exact Except.noConfusion h
    | ok allTables =>
      simp only [hfold] at h
      cases hval : validateNoDuplicateTables
          { tables := allTables, dialect := Dialect.postgres } with
      | some e =>
        simp only [hval] at h
        exact Except.noConfusion h
      | none =>
        simp only [hval] at h
        injection h with h
        subst h
        refine ⟨?_, List.perm_insertionSort _ _, ?_⟩
        · simpa using loadFold_ok dir (sortByPath dir entries) [] allTables hfold
        · haveI ht : IsTrans DirEntry
              (fun a b => stringLeB (entryPath dir a) (entryPath dir b) = true) :=
            ⟨fun a b c hab hbc => charListLe_trans _ _ _ hab hbc⟩
          haveI hto : IsTotal DirEntry
              (fun a b => stringLeB (entryPath dir a) (entryPath dir b) = true) :=
            ⟨fun a b => charListLe_total _ _⟩
          exact List.sorted_insertionSort _ _

/-- Parse outcome of a one-table file defining a_table. -/
def aTableSchema : Schema :=
  { tables :=
      [ { name := "a_table", schema := "", columns := [], rlsEnabled := false,
          sourceLocation := some { file := "d/a.lp.sql", line := 1, column := 1 } } ],
    dialect := Dialect.postgres }

/-- Parse outcome of a one-table file defining b_table. -/
def bTableSchema : Schema :=
  { tables :=
      [ { name := "b_table", schema := "", columns := [], rlsEnabled := false,
          sourceLocation := some { file := "d/b.lp.sql", line := 1, column := 1 } } ],
    dialect := Dialect.postgres }

/-- Directory entry a.lp.sql. -/
def entryA : DirEntry :=
  { name := "a.lp.sql", isDir := false, isSymlink := false,
    parseResult := Except.ok aTableSchema }

/-- Directory entry b.lp.sql. -/
def entryB : DirEntry :=
  { name := "b.lp.sql", isDir := false, isSymlink := false,
    parseResult := Except.ok bTableSchema }

/-- The aggregate schema of the two-entry directory, in sorted order. -/
def dirSchemaW : Schema :=
  { tables := aTableSchema.tables ++ bTableSchema.tables,
    dialect := Dialect.postgres }

/-- Witness for C3: a directory listed out of order is processed sorted,
a.lp.sql before b.lp.sql. -/
theorem claim_C3_witness :
    dirSchemaW.tables = (sortByPath "d" [entryB, entryA]).flatMap entryTables ∧
    (sortByPath "d" [entryB, entryA]).Perm [entryB, entryA] ∧
    List.Pairwise
      (fun a b => stringLeB (entryPath "d" a) (entryPath "d" b) = true)
      (sortByPath "d" [entryB, entryA]) :=
  claim_C3_directory_ordering "d" [entryB, entryA] dirSchemaW (by decide) rfl

/-- C8: loader input-selection errors: a single-file path whose name does
not carry the (case-insensitively recognized) .lp.sql suffix fails the
load with the unsupported-path error and returns no Schema, and a
directory containing zero recognized-suffix entries fails with the
message naming that directory. -/
theorem claim_C8_loader_input_errors :
    (∀ (path : String) (parseResult : Except String Schema),
      hasLpSqlSuffix path = false →
      LoadSchema path (PathInfo.file parseResult) =
        Except.error "did not find .lp.sql file(s)") ∧
    (∀ (dir : String) (entries : List DirEntry),
      (∀ e ∈ entries, isSchemaFileEntry e = false) →
      loadSchemaFromDir dir entries =
        Except.error ("no .lp.sql files found in directory " ++ dir) ∧
      LoadSchema dir (PathInfo.dir entries) =
        Except.error ("no .lp.sql files found in directory " ++ dir)) := by
  constructor
  · intro path pr h
    simp [LoadSchema, h]
  · intro dir entries h
    have hfil : entries.filter isSchemaFileEntry = [] := by
      rw [List.filter_eq_nil_iff]
      intro a ha
      simp [h a ha]
    have hdir : loadSchemaFromDir dir entries =
        Except.error ("no .lp.sql files found in directory " ++ dir) := by
      simp [loadSchemaFromDir, hfil]
    exact ⟨hdir, hdir⟩

/-- A directory entry without the recognized suffix. -/
def txtEntry : DirEntry :=
  { name := "readme.txt", isDir := false, isSymlink := false,
    parseResult := Except.error "ignored" }

/-- Witness for C8 at a wrong-suffix file and a directory holding only a
readme. -/
theorem claim_C8_witness :
    LoadSchema "schema.sql"
      (PathInfo.file (Except.ok { tables := [], dialect := Dialect.postgres })) =
      Except.error "did not find .lp.sql file(s)" ∧
    LoadSchema "migrations" (PathInfo.dir [txtEntry]) =
      Except.error "no .lp.sql files found in directory migrations" :=
  ⟨claim_C8_loader_input_errors.1 "schema.sql" _ (by decide),
   (claim_C8_loader_input_errors.2 "migrations" [txtEntry] (by decide)).2⟩

/-- Appending a list of diagnostics through the pipeline's fold appends
them all, adds their count to the error counter, and clears validity
exactly when at least one was appended. -/
theorem check_fold_spec (ds : List Diagnostic) :
    ∀ output : CheckOutput,
      ds.foldl (fun output diag =>
        { output with
          diagnostics := output.diagnostics ++ [diag],
          summary := { output.summary with
                        errors := output.summary.errors + 1, valid := false } })
        output =
      { output with
        diagnostics := output.diagnostics ++ ds,
        summary := { output.summary with
                      errors := output.summary.errors + ds.length,
                      valid := if ds = [] then output.summary.valid else false } } := by
  induction ds with
  | nil =>
    intro output
    obtain ⟨d, ⟨e, w, v⟩⟩ := output
    simp
  | cons d0 ds ih =>
    intro output
    rw [List.foldl_cons, ih]
    obtain ⟨d, ⟨e, w, v⟩⟩ := output
    simp [Nat.add_assoc, Nat.add_comm, Nat.add_left_comm]

/-- C6: the Check Pipeline never raises for content errors: on any load
failure it produces exactly one error Diagnostic and one error increment,
locating it from the leftmost path:line:col pattern of the error text when
one matches, else from a "line N" pattern, else defaulting to line 1
column 1 of the input path, and returns that single-diagnostic invalid
report; on a successful load it appends one error diagnostic per
duplicate-validator result, incrementing the error counter and clearing
the validity flag for each. -/
theorem claim_C6_check_pipeline (path : String) (info : PathInfo) :
    (∀ e, loadSchemaWithoutValidation path info = Except.error e →
      CheckSchema path info =
        { diagnostics := [parseErrorToDiagnostic e path],
          summary := { errors := 1, warnings := 0, valid := false } } ∧
      (parseErrorToDiagnostic e path).severity = "error" ∧
      (match findFileLoc e.data, findLineN e.data with
       | some (f, d1, d2), _ =>
           (parseErrorToDiagnostic e path).file = String.mk f ∧
           (parseErrorToDiagnostic e path).line = digitsToNat d1 ∧
           (parseErrorToDiagnostic e path).column = digitsToNat d2
       | none, some d =>
           (parseErrorToDiagnostic e path).file = path ∧
           (parseErrorToDiagnostic e path).line = digitsToNat d ∧
           (parseErrorToDiagnostic e path).column = 1
       | none, none =>
           (parseErrorToDiagnostic e path).file = path ∧
           (parseErrorToDiagnostic e path).line = 1 ∧
           (parseErrorToDiagnostic e path).column = 1)) ∧
    (∀ schema, loadSchemaWithoutValidation path info = Except.ok schema →
      CheckSchema path info =
        { diagnostics := ValidateDuplicateTablesAsDiagnostics schema,
          summary :=
            { errors := (ValidateDuplicateTablesAsDiagnostics schema).length,
              warnings := 0,
              valid :=
                if ValidateDuplicateTablesAsDiagnostics schema = [] then true
                else false } }) := by
  constructor
  · intro e h
    refine ⟨?_, ?_, ?_⟩
    · simp only [CheckSchema, NewCheckOutput, h]
      simp
    · cases hf : findFileLoc e.data with
      | some r =>
        obtain ⟨f, d1, d2⟩ := r
        simp [parseErrorToDiagnostic, hf]
      | none =>
        cases hl : findLineN e.data with
        | some d => simp [parseErrorToDiagnostic, hf, hl]
        | none => simp [parseErrorToDiagnostic, hf, hl]
    · cases hf : findFileLoc e.data with
      | some r =>
        obtain ⟨f, d1, d2⟩ := r
        simp [parseErrorToDiagnostic, hf]
      | none =>
        cases hl : findLineN e.data with
        | some d => simp [parseErrorToDiagnostic, hf, hl]
        | none => simp [parseErrorToDiagnostic, hf, hl]
  · intro schema h
    simp only [CheckSchema, NewCheckOutput, h]
    rw [check_fold_spec]
    simp

/-- A loaded schema holding the implicit/explicit public.users pair. -/
def dupPairSchema : Schema :=
  { tables := [dupTc, dupTa], dialect := Dialect.postgres }

/-- Witness for C6: a concrete load failure carrying a "line 3" pattern
becomes the single located diagnostic, and a concrete duplicate pair
yields the two-error invalid report. -/
theorem claim_C6_witness :
    CheckSchema "p.lp.sql" (PathInfo.file (Except.error "boom line 3")) =
      { diagnostics :=
          [ { code := "", message := "failed to parse SQL DDL: boom line 3",
              severity := "error", file := "p.lp.sql", line := 3, column := 1 } ],
        summary := { errors := 1, warnings := 0, valid := false } } ∧
    CheckSchema "q.lp.sql" (PathInfo.file (Except.ok dupPairSchema)) =
      { diagnostics := ValidateDuplicateTablesAsDiagnostics dupPairSchema,
        summary := { errors := 2, warnings := 0, valid := false } } := by
  constructor
  · have h := (claim_C6_check_pipeline "p.lp.sql"
      (PathInfo.file (Except.error "boom line 3"))).1
      "failed to parse SQL DDL: boom line 3" rfl
    exact h.1.trans (by decide)
  · have h := (claim_C6_check_pipeline "q.lp.sql"
      (PathInfo.file (Except.ok dupPairSchema))).2 dupPairSchema rfl
    exact h.trans (by decide)

end Lockplane
